import Mathlib

/-!
# Verification of the blockcraft core against its specification

Shallow embedding of the blockcraft repository's core data model and
operations (Block / ProofOfWorkBlock hashing and mining, consensus
validation, entry pool, incentive model, chain validation and
replacement, file storage format, and the concurrency discipline of
`addBlock` / `addPeerBlock` / `replaceChain`), together with theorems
settling the frozen claims about the specification.

Machine integers are modelled as `Nat`/`Int` with explicit reduction
modulo `2 ^ 32` where the SHA-256 algorithm requires 32-bit wraparound.
Node's `crypto` SHA-256 is implemented in full; ECDSA signature
verification (the external `elliptic` library) is treated as an abstract
boolean predicate.
-/

/-! ## SHA-256 (FIPS 180-4), over byte lists -/

namespace Sha256

def M32 : Nat := 4294967296

def rotr (n x : Nat) : Nat := ((x >>> n) ||| (x <<< (32 - n))) % M32

def bigSigma0 (x : Nat) : Nat := rotr 2 x ^^^ rotr 13 x ^^^ rotr 22 x

def bigSigma1 (x : Nat) : Nat := rotr 6 x ^^^ rotr 11 x ^^^ rotr 25 x

def smallSigma0 (x : Nat) : Nat := rotr 7 x ^^^ rotr 18 x ^^^ (x >>> 3)

def smallSigma1 (x : Nat) : Nat := rotr 17 x ^^^ rotr 19 x ^^^ (x >>> 10)

def chf (x y z : Nat) : Nat := (x &&& y) ^^^ ((x ^^^ 4294967295) &&& z)

def maj (x y z : Nat) : Nat := (x &&& y) ^^^ (x &&& z) ^^^ (y &&& z)

def kConsts : List Nat :=
  [0x428a2f98, 0x71374491, 0xb5c0fbcf, 0xe9b5dba5, 0x3956c25b, 0x59f111f1, 0x923f82a4, 0xab1c5ed5]
    ++ [0xd807aa98, 0x12835b01, 0x243185be, 0x550c7dc3, 0x72be5d74, 0x80deb1fe, 0x9bdc06a7, 0xc19bf174]
    ++ [0xe49b69c1, 0xefbe4786, 0x0fc19dc6, 0x240ca1cc, 0x2de92c6f, 0x4a7484aa, 0x5cb0a9dc, 0x76f988da]
    ++ [0x983e5152, 0xa831c66d, 0xb00327c8, 0xbf597fc7, 0xc6e00bf3, 0xd5a79147, 0x06ca6351, 0x14292967]
    ++ [0x27b70a85, 0x2e1b2138, 0x4d2c6dfc, 0x53380d13, 0x650a7354, 0x766a0abb, 0x81c2c92e, 0x92722c85]
    ++ [0xa2bfe8a1, 0xa81a664b, 0xc24b8b70, 0xc76c51a3, 0xd192e819, 0xd6990624, 0xf40e3585, 0x106aa070]
    ++ [0x19a4c116, 0x1e376c08, 0x2748774c, 0x34b0bcb5, 0x391c0cb3, 0x4ed8aa4a, 0x5b9cca4f, 0x682e6ff3]
    ++ [0x748f82ee, 0x78a5636f, 0x84c87814, 0x8cc70208, 0x90befffa, 0xa4506ceb, 0xbef9a3f7, 0xc67178f2]

structure Digest where
  h0 : Nat
  h1 : Nat
  h2 : Nat
  h3 : Nat
  h4 : Nat
  h5 : Nat
  h6 : Nat
  h7 : Nat
deriving Repr, DecidableEq

def initH : Digest :=
  ⟨0x6a09e667, 0xbb67ae85, 0x3c6ef372, 0xa54ff53a, 0x510e527f, 0x9b05688c, 0x1f83d9ab, 0x5be0cd19⟩

def be64 (n : Nat) : List Nat :=
  [(n >>> 56) % 256, (n >>> 48) % 256, (n >>> 40) % 256, (n >>> 32) % 256,
   (n >>> 24) % 256, (n >>> 16) % 256, (n >>> 8) % 256, n % 256]

def be32 (n : Nat) : List Nat :=
  [(n >>> 24) % 256, (n >>> 16) % 256, (n >>> 8) % 256, n % 256]

/-- Pad a byte message per FIPS 180-4: append 0x80, zero bytes up to
56 mod 64, then the bit length as a 64-bit big-endian integer. -/
def padBytes (msg : List Nat) : List Nat :=
  let L := msg.length
  let z := (56 + 64 - ((L + 1) % 64)) % 64
  msg ++ (0x80 :: List.replicate z 0) ++ be64 (8 * L)

def chunksGo : Nat → List Nat → List (List Nat)
  | 0, _ => []
  | _, [] => []
  | fuel + 1, l => l.take 64 :: chunksGo fuel (l.drop 64)

def chunks64 (l : List Nat) : List (List Nat) := chunksGo l.length l

def wordsGo : Nat → List Nat → List Nat
  | 0, _ => []
  | fuel + 1, b0 :: b1 :: b2 :: b3 :: rest =>
      ((b0 <<< 24) + (b1 <<< 16) + (b2 <<< 8) + b3) :: wordsGo fuel rest
  | _ + 1, _ => []

def wordsOf (block : List Nat) : List Nat := wordsGo block.length block

def extendSchedule (first16 : List Nat) : List Nat :=
  (List.range 48).foldl
    (fun ws _ =>
      let t := ws.length
      ws ++ [(smallSigma1 (ws.getD (t - 2) 0) + ws.getD (t - 7) 0 +
              smallSigma0 (ws.getD (t - 15) 0) + ws.getD (t - 16) 0) % M32])
    first16

def roundStep (st : Digest) (wk : Nat × Nat) : Digest :=
  let t1 := (st.h7 + bigSigma1 st.h4 + chf st.h4 st.h5 st.h6 + wk.2 + wk.1) % M32
  let t2 := (bigSigma0 st.h0 + maj st.h0 st.h1 st.h2) % M32
  ⟨(t1 + t2) % M32, st.h0, st.h1, st.h2, (st.h3 + t1) % M32, st.h4, st.h5, st.h6⟩

def compressBlock (h : Digest) (block : List Nat) : Digest :=
  let ws := extendSchedule (wordsOf block)
  let f := (ws.zip kConsts).foldl roundStep h
  ⟨(h.h0 + f.h0) % M32, (h.h1 + f.h1) % M32, (h.h2 + f.h2) % M32, (h.h3 + f.h3) % M32,
   (h.h4 + f.h4) % M32, (h.h5 + f.h5) % M32, (h.h6 + f.h6) % M32, (h.h7 + f.h7) % M32⟩

def sha256Bytes (msg : List Nat) : List Nat :=
  let d := (chunks64 (padBytes msg)).foldl compressBlock initH
  be32 d.h0 ++ be32 d.h1 ++ be32 d.h2 ++ be32 d.h3 ++
  be32 d.h4 ++ be32 d.h5 ++ be32 d.h6 ++ be32 d.h7

def hexDigitChar (d : Nat) : Char := "0123456789abcdef".data.getD d '0'

def byteHex (b : Nat) : List Char := [hexDigitChar ((b >>> 4) % 16), hexDigitChar (b % 16)]

/-- Node `crypto.createHash("SHA256").update(msg).digest("hex")`:
lowercase hexadecimal SHA-256 digest. -/
def sha256Hex (msg : List Nat) : String := String.mk ((sha256Bytes msg).flatMap byteHex)

end Sha256

/-! ## UTF-8 encoding (Node hashes strings as UTF-8 byte streams) -/

def utf8Char (c : Char) : List Nat :=
  let n := c.toNat
  if n < 0x80 then [n]
  else if n < 0x800 then [0xC0 ||| (n >>> 6), 0x80 ||| (n &&& 0x3F)]
  else if n < 0x10000 then
    [0xE0 ||| (n >>> 12), 0x80 ||| ((n >>> 6) &&& 0x3F), 0x80 ||| (n &&& 0x3F)]
  else
    [0xF0 ||| (n >>> 18), 0x80 ||| ((n >>> 12) &&& 0x3F),
     0x80 ||| ((n >>> 6) &&& 0x3F), 0x80 ||| (n &&& 0x3F)]

def utf8Bytes (s : String) : List Nat := s.data.flatMap utf8Char

/-- SHA-256 lowercase-hex digest of a string, UTF-8 encoded. -/
def sha256Str (s : String) : String := Sha256.sha256Hex (utf8Bytes s)

set_option maxRecDepth 10000

/-! ## Decimal rendering of JS numbers (integer-valued)

JS template literals and `JSON.stringify` render integer-valued numbers
in decimal; we implement that rendering directly. -/

def digitChar (d : Nat) : Char := "0123456789".data.getD d '0'

def natDecGo : Nat → Nat → List Char → List Char
  | 0, _, acc => acc
  | fuel + 1, n, acc =>
      if n < 10 then digitChar n :: acc
      else natDecGo fuel (n / 10) (digitChar (n % 10) :: acc)

def natDec (n : Nat) : String := String.mk (natDecGo (n + 1) n [])

def intDec : Int → String
  | Int.ofNat n => natDec n
  | Int.negSucc n => "-" ++ natDec (n + 1)

/-! ## JSON values and `JSON.stringify` -/

inductive Json where
  | null : Json
  | bool : Bool → Json
  | num : Int → Json
  | str : String → Json
  | arr : List Json → Json
  | obj : List (String × Json) → Json

mutual

def Json.beq : Json → Json → Bool
  | .null, .null => true
  | .bool a, .bool b => a == b
  | .num a, .num b => a == b
  | .str a, .str b => a == b
  | .arr a, .arr b => Json.beqList a b
  | .obj a, .obj b => Json.beqObj a b
  | _, _ => false

def Json.beqList : List Json → List Json → Bool
  | [], [] => true
  | x :: xs, y :: ys => Json.beq x y && Json.beqList xs ys
  | _, _ => false

def Json.beqObj : List (String × Json) → List (String × Json) → Bool
  | [], [] => true
  | (k1, v1) :: xs, (k2, v2) :: ys => k1 == k2 && Json.beq v1 v2 && Json.beqObj xs ys
  | _, _ => false

end

mutual

theorem Json.beq_eq : ∀ a b, Json.beq a b = true → a = b
  | .null, .null, _ => rfl
  | .bool a, .bool b, h => by simpa [Json.beq] using congrArg Json.bool (by simpa [Json.beq] using h)
  | .num a, .num b, h => by
      have : a = b := by simpa [Json.beq] using h
      exact congrArg Json.num this
  | .str a, .str b, h => by
      have : a = b := by simpa [Json.beq] using h
      exact congrArg Json.str this
  | .arr a, .arr b, h => congrArg Json.arr (Json.beqList_eq a b (by simpa [Json.beq] using h))
  | .obj a, .obj b, h => congrArg Json.obj (Json.beqObj_eq a b (by simpa [Json.beq] using h))

theorem Json.beqList_eq : ∀ a b, Json.beqList a b = true → a = b
  | [], [], _ => rfl
  | x :: xs, y :: ys, h => by
      have h2 := by simpa [Json.beqList, Bool.and_eq_true] using h
      exact by rw [Json.beq_eq x y h2.1, Json.beqList_eq xs ys h2.2]

theorem Json.beqObj_eq : ∀ a b, Json.beqObj a b = true → a = b
  | [], [], _ => rfl
  | (k1, v1) :: xs, (k2, v2) :: ys, h => by
      have h2 := by simpa [Json.beqObj, Bool.and_eq_true] using h
      have hk : k1 = k2 := by simpa using h2.1.1
      rw [hk, Json.beq_eq v1 v2 h2.1.2, Json.beqObj_eq xs ys h2.2]

end

mutual

theorem Json.beq_refl : ∀ a, Json.beq a a = true
  | .null => rfl
  | .bool a => by simp [Json.beq]
  | .num a => by simp [Json.beq]
  | .str a => by simp [Json.beq]
  | .arr a => by simpa [Json.beq] using Json.beqList_refl a
  | .obj a => by simpa [Json.beq] using Json.beqObj_refl a

theorem Json.beqList_refl : ∀ a, Json.beqList a a = true
  | [] => rfl
  | x :: xs => by simp [Json.beqList, Json.beq_refl x, Json.beqList_refl xs]

theorem Json.beqObj_refl : ∀ a, Json.beqObj a a = true
  | [] => rfl
  | (k, v) :: xs => by simp [Json.beqObj, Json.beq_refl v, Json.beqObj_refl xs]

end

instance : DecidableEq Json := fun a b =>
  if h : Json.beq a b = true then isTrue (Json.beq_eq a b h)
  else isFalse (fun he => h (he ▸ Json.beq_refl a))

/-- A two-character escape: a backslash followed by the marker. -/
def esc2 (m : Char) : List Char := ['\\', m]

/-- One character of a JSON string body, escaped exactly as ECMA-262
`QuoteJSONString` does: `"`, `\`, `\b`, `\f`, `\n`, `\r`, `\t` get
two-character escapes, other control characters below 0x20 get
`\u00XX`, everything else is emitted verbatim. -/
def escChar (c : Char) : List Char :=
  if c = '"' then esc2 '"'
  else if c = '\\' then esc2 '\\'
  else if c = '\x08' then esc2 'b'
  else if c = '\x0c' then esc2 'f'
  else if c = '\n' then esc2 'n'
  else if c = '\r' then esc2 'r'
  else if c = '\t' then esc2 't'
  else if c.toNat < 32 then '\\' :: 'u' :: '0' :: '0' :: Sha256.byteHex c.toNat
  else [c]

def jsonStrChars (s : String) : List Char := '"' :: s.data.flatMap escChar ++ ['"']

mutual

def jsonChars : Json → List Char
  | .null => 'n' :: ['u', 'l', 'l']
  | .bool true => 't' :: ['r', 'u', 'e']
  | .bool false => 'f' :: ['a', 'l', 's', 'e']
  | .num n => (intDec n).data
  | .str s => jsonStrChars s
  | .arr xs => '[' :: (jsonArrChars xs ++ [']'])
  | .obj kvs => '{' :: (jsonObjChars kvs ++ ['}'])

def jsonArrChars : List Json → List Char
  | [] => []
  | [x] => jsonChars x
  | x :: y :: xs => jsonChars x ++ ',' :: jsonArrChars (y :: xs)

def jsonObjChars : List (String × Json) → List Char
  | [] => []
  | [(k, v)] => jsonStrChars k ++ ':' :: jsonChars v
  | (k, v) :: kv :: kvs => jsonStrChars k ++ ':' :: jsonChars v ++ ',' :: jsonObjChars (kv :: kvs)

end

/-- `JSON.stringify` (compact form, insertion key order), as used by the
source for hash preimages and persisted blocks. -/
def jsonStringify (j : Json) : String := String.mk (jsonChars j)

/-! ## Block data model (Block.js / ProofOfWorkBlock.js) -/

structure Block where
  index : Nat
  data : Json
  previousHash : String
  timestamp : Int
  blockCreator : String
  ownerAddress : String
  nonce : Nat
  difficulty : Nat
  hash : String
deriving DecidableEq

/-- `ProofOfWorkBlock.computeHash`: SHA-256 (lowercase hex) of the
template-literal concatenation
`` `${index}${previousHash}${timestamp}${blockCreator}${ownerAddress}${JSON.stringify(data)}${nonce}` ``. -/
def powComputeHash (index : Nat) (previousHash : String) (timestamp : Int)
    (blockCreator ownerAddress : String) (data : Json) (nonce : Nat) : String :=
  sha256Str (natDec index ++ previousHash ++ intDec timestamp ++ blockCreator ++
    ownerAddress ++ jsonStringify data ++ natDec nonce)

/-- Recomputed hash of a block, as produced by `new ProofOfWorkBlock(block)`
(the constructor recomputes `hash` from the other fields; `difficulty`
is not part of the preimage). -/
def Block.recomputeHash (b : Block) : String :=
  powComputeHash b.index b.previousHash b.timestamp b.blockCreator b.ownerAddress b.data b.nonce

/-- `ProofOfWorkConsensus.validateBlockHash`: rebuild the block and
compare the recomputed hash with the declared one. -/
def validateBlockHash (b : Block) : Bool := b.recomputeHash == b.hash

/-- `ProofOfWorkConsensus.validateBlockConsensus`: delegates to
`validateBlockHash`. -/
def validateBlockConsensus (b : Block) : Bool := validateBlockHash b

/-- `Array(d + 1).join("0")`: the string of `d` zero characters. -/
def zeroString (d : Nat) : String := String.mk (List.replicate d '0')

/-! ## Mining (ProofOfWorkBlock.mineBlock)

The JS loop is
`while (!this.stopMining && this.hash.substring(0, difficulty) !== "0"*difficulty) { this.nonce++; this.hash = this.computeHash(); ... }`
returning `!this.stopMining`.  `stopMining` is a one-way flag that other
tasks may set while the miner is suspended at a cooperative yield; we
sample it through an external signal `stop : Nat → Bool`, indexed by the
number of loop-condition evaluations performed so far (a superset of the
real behaviours, where the flag can change only at yields). -/

structure PowFields where
  index : Nat
  data : Json
  previousHash : String
  timestamp : Int
  blockCreator : String
  ownerAddress : String
deriving DecidableEq

def powHash (f : PowFields) (nonce : Nat) : String :=
  powComputeHash f.index f.previousHash f.timestamp f.blockCreator f.ownerAddress f.data nonce

/-- JS `hash.substring(0, difficulty)` (character-level prefix). -/
def strTake (s : String) (n : Nat) : String := String.mk (s.data.take n)

/-- One execution of the mining loop, fuelled.  Returns
`some (returnValue, finalNonce, finalHash, exitCheckIndex)` when the loop
exits within `fuel` iterations, `none` otherwise. -/
def mineLoop (stop : Nat → Bool) (f : PowFields) (difficulty : Nat) :
    Nat → Nat → String → Nat → Option (Bool × Nat × String × Nat)
  | 0, _, _, _ => none
  | fuel + 1, nonce, hash, step =>
      if stop step then some (false, nonce, hash, step)
      else if strTake hash difficulty = zeroString difficulty then some (true, nonce, hash, step)
      else mineLoop stop f difficulty fuel (nonce + 1) (powHash f (nonce + 1)) (step + 1)

/-- `mineBlock` as called in `createBlock`: the block is freshly
constructed, so the loop starts at nonce 0 with `hash = computeHash()`. -/
def mineBlock (stop : Nat → Bool) (f : PowFields) (difficulty : Nat) (fuel : Nat) :
    Option (Bool × Nat × String × Nat) :=
  mineLoop stop f difficulty fuel 0 (powHash f 0) 0

/-! ## Blockchain.isValidTimestamp and Blockchain.validateChain -/

/-- `Blockchain.isValidTimestamp(nextBlock, previousBlock)`:
`previousBlock.timestamp + MAX_TIMESTEP_BACKWARD < nextBlock.timestamp`
with `MAX_TIMESTEP_BACKWARD = -60 * 1000` (the forward bound is
commented out in the source). -/
def isValidTimestamp (nextBlock previousBlock : Block) : Bool :=
  previousBlock.timestamp + (-60 * 1000) < nextBlock.timestamp

structure ChainError where
  errorType : String
  blockNumber : Nat
  message : String
deriving DecidableEq

structure ChainIntegrity where
  isValid : Bool
  blockCount : Nat
  areHashesValid : Bool
  arePreviousHashesValid : Bool
  areTimestampsValid : Bool
  areIndexesValid : Bool
  errors : List ChainError
deriving DecidableEq

/-- The body of `validateChain`'s loop for one index `i ≥ 1`, applying
the four checks in source order (hash, previousHash, index, timestamp)
and accumulating errors and category flags. -/
def validateChainStep (previousBlock currentBlock : Block) (i : Nat)
    (acc : ChainIntegrity) : ChainIntegrity :=
  let acc :=
    if validateBlockHash currentBlock ≠ true then
      { acc with
        errors := acc.errors ++ [⟨"hash", i,
          "Block " ++ natDec i ++ " has a mismatch between the hash and content."⟩],
        areHashesValid := false, isValid := false }
    else acc
  let acc :=
    if currentBlock.previousHash ≠ previousBlock.hash then
      { acc with
        errors := acc.errors ++ [⟨"previousHash", i,
          "Block " ++ natDec i ++ " has an invalid previous hash."⟩],
        arePreviousHashesValid := false, isValid := false }
    else acc
  let acc :=
    if currentBlock.index ≠ i then
      { acc with
        errors := acc.errors ++ [⟨"index", i,
          "Block " ++ natDec i ++ " has an index discrepancy."⟩],
        areIndexesValid := false, isValid := false }
    else acc
  if isValidTimestamp currentBlock previousBlock ≠ true then
    { acc with
      errors := acc.errors ++ [⟨"timestamp", i,
        "Block " ++ natDec i ++ " has a timestamp discrepancy."⟩],
      areTimestampsValid := false, isValid := false }
  else acc

def validateChainGo (previousBlock : Block) (rest : List Block) (i : Nat)
    (acc : ChainIntegrity) : ChainIntegrity :=
  match rest with
  | [] => acc
  | currentBlock :: rest =>
      validateChainGo currentBlock rest (i + 1) (validateChainStep previousBlock currentBlock i acc)

/-- `Blockchain.validateChain(chainToValidate)`: iterates `i` from 1 to
`length - 1`, checking each block against its predecessor; blocks at
index 0 are never inspected. -/
def validateChain (chain : List Block) : ChainIntegrity :=
  let init : ChainIntegrity := ⟨true, chain.length, true, true, true, true, []⟩
  match chain with
  | [] => init
  | first :: rest => validateChainGo first rest 1 init

/-! ## Storage (StorageHandler.saveBlock / loadBlockchain)

The persisted stream is modelled at the character level (`List Char`):
each `saveBlock` appends the block's JSON serialization followed by the
separator `",\n"`; `loadBlockchain` splits the whole stream on `",\n"`
and keeps the nonempty segments (`filter(line => line)`). -/

/-- `JSON.stringify` of a block's serializable object, keys in
`toSerializableObject` order:
index, data, previousHash, timestamp, blockCreator, ownerAddress, hash,
nonce, difficulty. -/
def blockJson (b : Block) : String :=
  jsonStringify (.obj [("index", .num b.index), ("data", b.data),
    ("previousHash", .str b.previousHash), ("timestamp", .num b.timestamp),
    ("blockCreator", .str b.blockCreator), ("ownerAddress", .str b.ownerAddress),
    ("hash", .str b.hash), ("nonce", .num b.nonce), ("difficulty", .num b.difficulty)])

def sepChars : List Char := [',', '\n']

/-- `StorageHandler.saveBlock`: append `JSON.stringify(block) + ",\n"`
to the stored stream. -/
def saveBlockChars (storage : List Char) (b : Block) : List Char :=
  storage ++ (blockJson b).data ++ sepChars

/-- JS `String.prototype.split(",\n")`: greedy left-to-right split on
the two-character separator. -/
def splitSep : List Char → List (List Char)
  | [] => [[]]
  | ',' :: '\n' :: rest => [] :: splitSep rest
  | c :: rest =>
      match splitSep rest with
      | [] => [[c]]
      | seg :: segs => (c :: seg) :: segs

/-- `StorageHandler.loadBlockchain` up to JSON parsing: split the stream
on `",\n"` and drop falsy (empty) segments. -/
def loadSegments (content : List Char) : List (List Char) :=
  (splitSep content).filter (· ≠ [])

/-! ## Entries and the entry pool (DataHandler.js)

ECDSA verification (the external `elliptic` library) is abstracted as a
boolean predicate `verify pubkey message signature`. -/

structure Entry where
  entryId : Option String
  from_ : String
  to_ : String
  amount : Int
  type : String
  initiationTimestamp : Int
  data : Json
  hash : String
  signature : Option String
deriving DecidableEq

/-- `DataHandler.hashEntry`: SHA-256 hex of `JSON.stringify` of the six
unsigned fields, keys in source order
`from, to, amount, type, initiationTimestamp, data`. -/
def hashEntry (e : Entry) : String :=
  sha256Str (jsonStringify (.obj [("from", .str e.from_), ("to", .str e.to_),
    ("amount", .num e.amount), ("type", .str e.type),
    ("initiationTimestamp", .num e.initiationTimestamp), ("data", e.data)]))

/-- The string signed and verified in `DataHandler.verifySignature`:
`JSON.stringify` of the seven fields (the six unsigned ones plus `hash`). -/
def signedEntryString (e : Entry) : String :=
  jsonStringify (.obj [("from", .str e.from_), ("to", .str e.to_),
    ("amount", .num e.amount), ("type", .str e.type),
    ("initiationTimestamp", .num e.initiationTimestamp), ("data", e.data),
    ("hash", .str e.hash)])

/-- `DataHandler.verifySignature`: sentinel senders `"ICO"` and
`"INCENTIVE"` are exempt; otherwise the ECDSA signature is checked
against the public key `from` over the seven-field serialization. -/
def verifySignatureE (verify : String → String → Option String → Bool) (e : Entry) : Bool :=
  if e.from_ ≠ "ICO" ∧ e.from_ ≠ "INCENTIVE" then
    verify e.from_ (signedEntryString e) e.signature
  else true

/-- `DataHandler.validatePendingEntry`: recomputed hash must match,
signature must verify (or sender is a sentinel), and the entry timestamp
must be within 60,000 ms of the node clock `now`. -/
def validatePendingEntry (verify : String → String → Option String → Bool)
    (now : Int) (e : Entry) : Bool :=
  if hashEntry e ≠ e.hash then false
  else if verifySignatureE verify e ≠ true then false
  else if (now - e.initiationTimestamp).natAbs > 60000 then false
  else true

/-- The entry pool: an insertion-ordered map from `entryId` to entry
(JS `Map`), modelled as an association list. -/
abbrev EntryPool := List (String × Entry)

def poolHas (pool : EntryPool) (id : String) : Bool :=
  pool.any (fun p => p.1 == id)

/-- `DataHandler.addPendingEntry`: assign a fresh `entryId` when absent,
skip when the id is already pooled, otherwise validate and insert.
(The mining trigger `checkAndInitiateBlockCreation` does not modify the
pool and is outside this model.) -/
def addPendingEntry (verify : String → String → Option String → Bool) (now : Int)
    (freshId : String) (pool : EntryPool) (entry : Entry) : EntryPool :=
  let e := match entry.entryId with
           | none => { entry with entryId := some freshId }
           | some _ => entry
  let id := match e.entryId with
            | some id => id
            | none => freshId
  if poolHas pool id then pool
  else if validatePendingEntry verify now e then pool ++ [(id, e)]
  else pool

/-! ## Incentive model (StandardMiningAward.js) -/

structure IncentiveDetails where
  blockCreator : String
  minterAddress : String
  incentiveAmount : Int
deriving DecidableEq

structure IncentiveResult where
  success : Bool
  targetBlockIndex : Option Nat
  blockIndex : Option Nat
  incentiveDetails : Option IncentiveDetails
deriving DecidableEq

/-- `StandardMiningReward.calculateIncentive`: the fixed reward. -/
def calculateIncentive (fixedReward : Int) (_block : Block) : Int := fixedReward

/-- The reward entry built by `StandardMiningReward.distributeIncentive`
before hashing: from `"INCENTIVE"`, to the block's `ownerAddress`,
`initiationTimestamp = Date.now()`, data a description naming the
rewarded block's index.  Its `hash` is the SHA-256 of the
`JSON.stringify` of those six fields (identical, key order included, to
`DataHandler.hashEntry`), and `signature` is `null`.  `blockchain.addEntry`
then assigns the fresh `entryId`. -/
def rewardEntry (incentive : Int) (now : Int) (block : Block) : Entry :=
  let unhashed : Entry :=
    { entryId := none, from_ := "INCENTIVE", to_ := block.ownerAddress,
      amount := incentive, type := "crypto", initiationTimestamp := now,
      data := .str ("Block creation incentive for block #" ++ natDec block.index ++ "."),
      hash := "", signature := none }
  { unhashed with hash := hashEntry unhashed }

/-- `StandardMiningReward.distributeIncentive`: build the hashed, unsigned
reward entry and push it through `Blockchain.addEntry` into the pool. -/
def distributeIncentive (verify : String → String → Option String → Bool)
    (now : Int) (freshId : String) (pool : EntryPool)
    (block : Block) (incentive : Int) : EntryPool :=
  addPendingEntry verify now freshId pool (rewardEntry incentive now block)

/-- `StandardMiningReward.processIncentive`: for a committed block of
height ≥ 7, reward the owner of the block six positions back in the
chain (`getBlockByIndex` reads the chain positionally). -/
def processIncentive (verify : String → String → Option String → Bool)
    (fixedReward : Int) (now : Int) (freshId : String)
    (chain : List Block) (pool : EntryPool) (block : Block) :
    IncentiveResult × EntryPool :=
  if block.index ≥ 7 then
    let targetBlockIndex := block.index - 6
    match chain.get? targetBlockIndex with
    | some targetBlock =>
        let incentive := calculateIncentive fixedReward targetBlock
        let pool := distributeIncentive verify now freshId pool targetBlock incentive
        (⟨true, none, some targetBlockIndex,
          some ⟨targetBlock.blockCreator, targetBlock.ownerAddress, incentive⟩⟩, pool)
    | none => (⟨false, none, none, none⟩, pool)
  else (⟨false, none, none, none⟩, pool)

/-! ## Blockchain.replaceChain -/

structure BCState where
  chain : List Block
  processingPeerChain : Bool
  storage : List Char
deriving DecidableEq

/-- `StorageHandler.saveBlockchain`: overwrite storage with the
concatenation of `JSON.stringify(block) + ",\n"` over the chain. -/
def serializeChain (chain : List Block) : List Char :=
  (chain.map (fun b => (blockJson b).data ++ sepChars)).flatten

/-- `Blockchain.replaceChain(newChain)`: no-op while `processingPeerChain`
is set or when the new chain is not strictly longer or fails
`validateChain`; otherwise replace the in-memory chain, rewrite storage
in full, and emit `newPeerChainAccepted` (the flag is cleared in the
`finally`).  The second component lists the emitted event names. -/
def replaceChain (st : BCState) (newChain : List Block) : BCState × List String :=
  if st.processingPeerChain then (st, [])
  else if newChain.length ≤ st.chain.length then (st, [])
  else if (validateChain newChain).isValid ≠ true then (st, [])
  else ({ chain := newChain, processingPeerChain := false,
          storage := serializeChain newChain }, ["newPeerChainAccepted"])

/-! ## Interleaving model of addBlock / addPeerBlock / replaceChain (C2)

The three chain-mutating operations run on one JS event loop; control
can move between them only at `await` boundaries (the mining yield, the
storage writes, and the validation await in `addPeerBlock`).  Each
operation is modelled as a program counter, the shared state carries the
chain, the four coordination flags and the `stopMining` flag, and a
schedule is an arbitrary list of atomic steps.  Guards that fail leave
the state unchanged (the corresponding code path returns without
mutating).

Atomicity notes, justified by the event-loop semantics of the source:
- `addBlock`'s re-check of `processingPeerBlock`/`processingPeerChain`
  happens in the microtask that resumes after `createBlock`, with no
  macrotask in between, so "mining returns" and the flag check form one
  atomic step (`miningSuccess`).
- `replaceChain` validates and overwrites `this.chain` synchronously
  before its first `await`, so guard and chain replacement form one
  atomic step (`chainStart`); the `newPeerChainAccepted` emission (which
  sets the miner's `stopMining`) happens after the storage rewrite
  (`chainFinish`).
- `addPeerBlock` emits `peerBlockAdded` synchronously with its push
  (`peerCommit`); the consensus subscriber then sets `stopMining` when a
  mining call is in flight.

Ghost fields (no influence on behaviour): `peerAcceptedDuringMining`
records that a peer block or peer chain was accepted between the start
and the return of the current/most recent mining call;
`ownBlockAppended` records that the block produced by that mining call
was appended. -/

inductive OwnPC where
  | idle | mining | savingOwn
deriving DecidableEq

inductive PeerPC where
  | idle | validating | savingPeer
deriving DecidableEq

inductive ChainPC where
  | idle | savingChain
deriving DecidableEq

structure C2Params where
  minedBlock : Block
  peerBlock : Block
  peerChain : List Block
  validBlock : List Block → Block → Bool
  validChain : List Block → Bool

structure C2State where
  chain : List Block
  blockCreationInProgress : Bool
  processingOwnBlock : Bool
  processingPeerBlock : Bool
  processingPeerChain : Bool
  stopMining : Bool
  ownPC : OwnPC
  peerPC : PeerPC
  chainPC : ChainPC
  peerValidResult : Bool
  peerAcceptedDuringMining : Bool
  ownBlockAppended : Bool

inductive C2Step where
  | startMining
  | miningCancelled
  | miningSuccess
  | ownSaveDone
  | peerStart
  | peerCheck
  | peerCommit
  | chainStart
  | chainFinish
deriving DecidableEq

def stepC2 (p : C2Params) (s : C2State) : C2Step → C2State
  | .startMining =>
      -- addBlock entry: guarded check-and-set of blockCreationInProgress,
      -- then createBlock constructs a fresh block (stopMining = false) and mines.
      if s.blockCreationInProgress then s
      else { s with blockCreationInProgress := true, stopMining := false,
                    ownPC := .mining,
                    peerAcceptedDuringMining := false, ownBlockAppended := false }
  | .miningCancelled =>
      -- mineBlock observes stopMining and returns cancelled; createBlock
      -- returns null; addBlock's finally clears the flags.
      if s.ownPC = .mining ∧ s.stopMining = true then
        { s with ownPC := .idle, blockCreationInProgress := false,
                 processingOwnBlock := false }
      else s
  | .miningSuccess =>
      -- mineBlock returns the block; in the same atomic region addBlock
      -- re-checks processingPeerBlock/processingPeerChain, and either
      -- discards the block or sets processingOwnBlock and starts the save.
      if s.ownPC = .mining ∧ s.stopMining = false then
        if s.processingPeerBlock = true ∨ s.processingPeerChain = true then
          { s with ownPC := .idle, blockCreationInProgress := false,
                   processingOwnBlock := false }
        else { s with ownPC := .savingOwn, processingOwnBlock := true }
      else s
  | .ownSaveDone =>
      -- saveBlock resolved: push the mined block, emit, clear the flags.
      if s.ownPC = .savingOwn then
        { s with chain := s.chain ++ [p.minedBlock], ownBlockAppended := true,
                 ownPC := .idle, blockCreationInProgress := false,
                 processingOwnBlock := false }
      else s
  | .peerStart =>
      -- addPeerBlock entry: guarded check-and-set of processingPeerBlock;
      -- validateBlock reads the current chain.
      if s.peerPC = .idle ∧ s.processingPeerBlock = false then
        { s with processingPeerBlock := true, peerPC := .validating,
                 peerValidResult := p.validBlock s.chain p.peerBlock }
      else s
  | .peerCheck =>
      -- the continuation after `await validateBlock`: on a valid block with
      -- neither own-block nor peer-chain processing active, start the save;
      -- otherwise return (finally clears the flag).
      if s.peerPC = .validating then
        if s.peerValidResult = true ∧ s.processingOwnBlock = false ∧
            s.processingPeerChain = false then
          { s with peerPC := .savingPeer }
        else { s with peerPC := .idle, processingPeerBlock := false }
      else s
  | .peerCommit =>
      -- saveBlock resolved: push the peer block and emit peerBlockAdded,
      -- which sets stopMining on the current mining block if one exists.
      if s.peerPC = .savingPeer then
        { s with chain := s.chain ++ [p.peerBlock],
                 stopMining := if s.ownPC = .mining then true else s.stopMining,
                 peerAcceptedDuringMining :=
                   if s.ownPC = .mining then true else s.peerAcceptedDuringMining,
                 peerPC := .idle, processingPeerBlock := false }
      else s
  | .chainStart =>
      -- replaceChain: guard, length and validity checks, flag set and chain
      -- overwrite are all synchronous before the first await.
      if s.chainPC = .idle ∧ s.processingPeerChain = false ∧
          s.chain.length < p.peerChain.length ∧ p.validChain p.peerChain = true then
        { s with processingPeerChain := true, chain := p.peerChain,
                 chainPC := .savingChain,
                 peerAcceptedDuringMining :=
                   if s.ownPC = .mining then true else s.peerAcceptedDuringMining }
      else s
  | .chainFinish =>
      -- saveBlockchain resolved: emit newPeerChainAccepted (sets stopMining
      -- on an in-flight mining block), finally clears the flag.
      if s.chainPC = .savingChain then
        { s with stopMining := if s.ownPC = .mining then true else s.stopMining,
                 processingPeerChain := false, chainPC := .idle }
      else s

/-- A quiescent starting state over an initial chain. -/
def initC2 (chain : List Block) : C2State :=
  ⟨chain, false, false, false, false, false, .idle, .idle, .idle, false, false, false⟩

def runC2 (p : C2Params) (sched : List C2Step) (s : C2State) : C2State :=
  sched.foldl (stepC2 p) s

def C2Inv (s : C2State) : Prop :=
  (s.processingOwnBlock = true ↔ s.ownPC = .savingOwn) ∧
  (s.processingPeerBlock = true ↔ s.peerPC ≠ .idle) ∧
  (s.processingPeerChain = true ↔ s.chainPC = .savingChain) ∧
  (s.ownPC ≠ .idle → s.blockCreationInProgress = true) ∧
  (s.ownPC = .mining → s.peerAcceptedDuringMining = true →
    s.stopMining = true ∨ s.processingPeerChain = true) ∧
  (s.ownPC = .savingOwn → s.peerAcceptedDuringMining = false) ∧
  (s.ownBlockAppended = true → s.peerAcceptedDuringMining = false) ∧
  (¬(s.ownPC = .savingOwn ∧ s.peerPC = .savingPeer)) ∧
  (s.ownBlockAppended = true → s.ownPC = .idle)

/-! ## Concrete fixtures used by witnesses and counterexamples -/

def genesisBlockC : Block :=
  { index := 0, data := .str "Genesis Block", previousHash := "0",
    timestamp := 1700000000000, blockCreator := "Genesis Block",
    ownerAddress := "Genesis Block", nonce := 0, difficulty := 0,
    hash := powComputeHash 0 "0" 1700000000000 "Genesis Block" "Genesis Block"
      (.str "Genesis Block") 0 }

def blockOneC : Block :=
  { index := 1, data := .str "b1", previousHash := genesisBlockC.hash,
    timestamp := 1700000000001, blockCreator := "n", ownerAddress := "n",
    nonce := 0, difficulty := 0,
    hash := powComputeHash 1 genesisBlockC.hash 1700000000001 "n" "n" (.str "b1") 0 }

def minedBlockC : Block :=
  { index := 1, data := .str "mined", previousHash := genesisBlockC.hash,
    timestamp := 1700000000002, blockCreator := "m", ownerAddress := "m",
    nonce := 0, difficulty := 0,
    hash := powComputeHash 1 genesisBlockC.hash 1700000000002 "m" "m" (.str "mined") 0 }

def paramsC2 : C2Params :=
  { minedBlock := minedBlockC, peerBlock := minedBlockC,
    peerChain := [genesisBlockC, blockOneC],
    validBlock := fun _ _ => false,
    validChain := fun ch => (validateChain ch).isValid }

/-- A block with declared difficulty 5 whose hash is the correctly
recomputed PoW hash of its fields but does not begin with five zeros. -/
def spoofBlock : Block :=
  { index := 1, data := .str "x", previousHash := "0", timestamp := 0,
    blockCreator := "a", ownerAddress := "a", nonce := 0, difficulty := 5,
    hash := powComputeHash 1 "0" 0 "a" "a" (.str "x") 0 }

/-- The entry as it sits in the pool after a successful incentive run:
the hashed, unsigned reward entry with the freshly assigned `entryId`. -/
def committedRewardEntry (fixedReward now : Int) (freshId : String) (target : Block) : Entry :=
  { rewardEntry fixedReward now target with entryId := some freshId }

def verifyNoneC : String → String → Option String → Bool := fun _ _ _ => false

def blockSevenC : Block :=
  { index := 7, data := .str "d7", previousHash := "p", timestamp := 7,
    blockCreator := "c", ownerAddress := "o", nonce := 0, difficulty := 0, hash := "h" }

def powFieldsC : PowFields :=
  { index := 0, data := .str "g", previousHash := "0", timestamp := 0,
    blockCreator := "c", ownerAddress := "o" }

def bcStateC : BCState :=
  { chain := [genesisBlockC], processingPeerChain := false,
    storage := serializeChain [genesisBlockC] }

def rewardEntryC : Entry := rewardEntry 50 0 genesisBlockC

def rewardEntryIdC : Entry := { rewardEntryC with entryId := some "w1" }

/-- A block fixture varying only in its timestamp. -/
def tsBlock (t : Int) : Block :=
  { index := 1, data := .str "d", previousHash := "p", timestamp := t,
    blockCreator := "c", ownerAddress := "o", nonce := 0, difficulty := 0, hash := "h" }

/-- A garbage genesis block: wrong index, impossible hash, arbitrary
timestamp. -/
def garbageGenesis : Block :=
  { index := 5, data := .str "junk", previousHash := "nonsense",
    timestamp := -42, blockCreator := "?", ownerAddress := "?",
    nonce := 9, difficulty := 99, hash := "not-a-hash" }

/-! ## Sanity checks against reference values -/

example : sha256Str "abc" = "ba7816bf8f01cfea414140de5dae2223b00361a396177a9cb410ff61f20015ad" := by
  decide

example : sha256Str "" = "e3b0c44298fc1c149afbf4c8996fb92427ae41e4649b934ca495991b7852b855" := by
  decide

example : sha256Str "100aa\"x\"0" =
    "92c95c01809f44dabd97c5b12be25466d00709d6506c76684a59ac40006add23" := by
  decide

example : natDec 1700000000000 = "1700000000000" := by decide

example : intDec (-60000) = "-60000" := by decide

example : jsonStringify (.obj [("a", .num 1), ("b", .str "x\ny")]) =
    "\x7b\x22a\x22:1,\x22b\x22:\x22x\\ny\x22\x7d" := by decide

example : jsonStringify (.arr [.null, .bool true, .str "hi"]) = "[null,true,\x22hi\x22]" := by
  decide

example : splitSep ("ab,\ncd,\n".data) = ["ab".data, "cd".data, []] := by decide

example : loadSegments ("ab,\ncd,\n".data) = ["ab".data, "cd".data] := by decide

example : loadSegments ("x,,\ny,\n".data) = ["x,".data, "y".data] := by decide

/-! ## Claim C1: validateBlockConsensus and the difficulty prefix -/

/-- C1 counterexample: `ProofOfWorkConsensus.validateBlockConsensus`
accepts a concrete block whose recomputed hash matches `hash` but whose
hash does not begin with `difficulty` zero characters (a spoofed
declared difficulty is not rejected), contradicting the claim that
acceptance requires the leading-zero prefix. -/
theorem claimC1_counterexample :
    validateBlockConsensus spoofBlock = true ∧
    (strTake spoofBlock.hash spoofBlock.difficulty == zeroString spoofBlock.difficulty) = false := by
  constructor
  · decide
  · decide

/-- C1 (amended): `validateBlockConsensus` checks exactly hash
self-consistency — it delegates to `validateBlockHash`, returning true
iff the hash recomputed from the block's fields equals the declared
`hash`; it performs no difficulty leading-zero-prefix check, so a block
with a spoofed declared difficulty but a self-consistent hash is
accepted. -/
theorem claimC1_amended (b : Block) :
    validateBlockConsensus b = validateBlockHash b ∧
    (validateBlockHash b = true ↔ b.recomputeHash = b.hash) := by
  refine ⟨rfl, ?_⟩
  simp [validateBlockHash]

/-! ## Claim C2: the coordination invariants of the interleaving model -/

theorem stepC2_inv (p : C2Params) (l : C2Step) (s : C2State) (h : C2Inv s) :
    C2Inv (stepC2 p s l) := by
  obtain ⟨chain, bcip, pob, ppb, ppc, stop, ownPC, peerPC, chainPC, pvr, ghost, app⟩ := s
  obtain ⟨i1, i2, i3, i4, i5, i6, i7, i8, i9⟩ := h
  cases l <;>
    simp only [stepC2, C2Inv] at * <;>
    split_ifs <;>
    cases ownPC <;> cases peerPC <;> cases chainPC <;> simp_all

theorem runC2_inv (p : C2Params) (sched : List C2Step) (s : C2State) (h : C2Inv s) :
    C2Inv (runC2 p sched s) := by
  induction sched generalizing s with
  | nil => exact h
  | cons l rest ih => exact ih (stepC2 p s l) (stepC2_inv p l s h)

theorem initC2_inv (chain : List Block) : C2Inv (initC2 chain) := by
  simp [C2Inv, initC2]

/-- C2 (amended): in every interleaved execution, a block produced by
local mining is never appended when a peer block or peer chain was
accepted between the start and the return of the mining call, and
own-block and peer-block commits are mutually exclusive.  (The original
claim's three-way mutual exclusion fails: see the counterexample —
`replaceChain` checks neither `processingOwnBlock` nor
`processingPeerBlock`, so a peer-chain replacement can commit while a
block commit is in flight.) -/
theorem claimC2_amended (p : C2Params) (chain0 : List Block) (sched : List C2Step) :
    ((runC2 p sched (initC2 chain0)).peerAcceptedDuringMining = true →
      (runC2 p sched (initC2 chain0)).ownBlockAppended = false) ∧
    ((decide ((runC2 p sched (initC2 chain0)).ownPC = OwnPC.savingOwn)) &&
     (decide ((runC2 p sched (initC2 chain0)).peerPC = PeerPC.savingPeer))) = false := by
  have h := runC2_inv p sched (initC2 chain0) (initC2_inv chain0)
  obtain ⟨i1, i2, i3, i4, i5, i6, i7, i8, i9⟩ := h
  constructor
  · intro hg
    cases happ : (runC2 p sched (initC2 chain0)).ownBlockAppended
    · rfl
    · exact absurd (i7 happ) (by simp [hg])
  · by_cases h1 : (runC2 p sched (initC2 chain0)).ownPC = OwnPC.savingOwn
    · by_cases h2 : (runC2 p sched (initC2 chain0)).peerPC = PeerPC.savingPeer
      · exact absurd ⟨h1, h2⟩ i8
      · simp [h2]
    · simp [h1]

/-- C2 counterexample: a concrete schedule in which a peer-chain
replacement commits (and overwrites the chain) while the own-block
commit is between its flag check and its append (`processingOwnBlock`
and `processingPeerChain` both set), after which the mined block is
appended on top of the replaced chain: more than one of the three
chain-mutating operations is committing at the same time, refuting the
claimed three-way mutual exclusion. -/
theorem claimC2_counterexample :
    ((runC2 paramsC2 [.startMining, .miningSuccess, .chainStart]
        (initC2 [genesisBlockC])).processingOwnBlock = true ∧
     (runC2 paramsC2 [.startMining, .miningSuccess, .chainStart]
        (initC2 [genesisBlockC])).ownPC = OwnPC.savingOwn ∧
     (runC2 paramsC2 [.startMining, .miningSuccess, .chainStart]
        (initC2 [genesisBlockC])).processingPeerChain = true ∧
     (runC2 paramsC2 [.startMining, .miningSuccess, .chainStart]
        (initC2 [genesisBlockC])).chainPC = ChainPC.savingChain ∧
     (runC2 paramsC2 [.startMining, .miningSuccess, .chainStart]
        (initC2 [genesisBlockC])).chain = [genesisBlockC, blockOneC]) ∧
    (runC2 paramsC2 [.startMining, .miningSuccess, .chainStart, .ownSaveDone]
        (initC2 [genesisBlockC])).chain = [genesisBlockC, blockOneC, minedBlockC] := by
  decide

/-! ## Claim C3: StandardMiningReward.processIncentive -/

/-- C3: for every committed block of height ≥ 7 (so the chain holds a
block six positions back) `processIncentive` succeeds and appends to the
pool exactly one entry, from `"INCENTIVE"` to the `ownerAddress` of the
block at index `B.index - 6`, of amount `fixedReward`, unsigned, whose
hash recomputes correctly over the six unsigned fields and which passes
`validatePendingEntry`; for every block of height < 7 the pool is left
unchanged and the result reports `success = false`. -/
theorem claimC3_theorem (verify : String → String → Option String → Bool)
    (fixedReward now : Int) (freshId : String) (chain : List Block)
    (pool : EntryPool) (B target : Block)
    (h7 : B.index ≥ 7)
    (htgt : chain.get? (B.index - 6) = some target)
    (hfresh : poolHas pool freshId = false) :
    (processIncentive verify fixedReward now freshId chain pool B).1.success = true ∧
    (processIncentive verify fixedReward now freshId chain pool B).2 =
      pool ++ [(freshId, committedRewardEntry fixedReward now freshId target)] ∧
    (committedRewardEntry fixedReward now freshId target).from_ = "INCENTIVE" ∧
    (committedRewardEntry fixedReward now freshId target).to_ = target.ownerAddress ∧
    (committedRewardEntry fixedReward now freshId target).amount = fixedReward ∧
    (committedRewardEntry fixedReward now freshId target).signature = none ∧
    hashEntry (committedRewardEntry fixedReward now freshId target) =
      (committedRewardEntry fixedReward now freshId target).hash ∧
    validatePendingEntry verify now (committedRewardEntry fixedReward now freshId target) = true ∧
    (∀ B2 : Block, B2.index < 7 →
      processIncentive verify fixedReward now freshId chain pool B2 =
        (⟨false, none, none, none⟩, pool)) := by
  have hhash : hashEntry (committedRewardEntry fixedReward now freshId target) =
      (committedRewardEntry fixedReward now freshId target).hash := by
    simp [committedRewardEntry, rewardEntry, hashEntry]
  have hvalid : validatePendingEntry verify now
      (committedRewardEntry fixedReward now freshId target) = true := by
    simp [validatePendingEntry, verifySignatureE, committedRewardEntry, rewardEntry, hashEntry]
  have hadd : addPendingEntry verify now freshId pool (rewardEntry fixedReward now target) =
      pool ++ [(freshId, committedRewardEntry fixedReward now freshId target)] := by
    simp [addPendingEntry, rewardEntry, committedRewardEntry, hfresh, validatePendingEntry,
      verifySignatureE, hashEntry]
  have htgt2 : chain[B.index - 6]? = some target := by
    simpa using htgt
  refine ⟨?_, ?_, rfl, rfl, rfl, rfl, hhash, hvalid, ?_⟩
  · simp [processIncentive, h7, htgt2]
  · simp [processIncentive, h7, htgt2, distributeIncentive, calculateIncentive, hadd]
  · intro B2 hlt
    simp [processIncentive, Nat.not_le.mpr hlt]

/-- C3 witness: a concrete height-7 commit enqueues exactly the reward
entry crediting the owner of the block six positions back. -/
theorem claimC3_witness :
    (processIncentive verifyNoneC 50 0 "rw1" [genesisBlockC, blockOneC] [] blockSevenC).1.success
      = true ∧
    (processIncentive verifyNoneC 50 0 "rw1" [genesisBlockC, blockOneC] [] blockSevenC).2 =
      [("rw1", committedRewardEntry 50 0 "rw1" blockOneC)] := by
  have h := claimC3_theorem verifyNoneC 50 0 "rw1" [genesisBlockC, blockOneC] [] blockSevenC
      blockOneC (by decide) (by rfl) (by rfl)
  exact ⟨h.1, by simpa using h.2.1⟩

/-! ## Claim C4: the block hash formula -/

theorem hexDigitChar_mem (d : Nat) : Sha256.hexDigitChar d ∈ "0123456789abcdef".data := by
  by_cases h : d < 16
  · interval_cases d <;> decide
  · unfold Sha256.hexDigitChar
    rw [List.getD_eq_default]
    · decide
    · simpa using Nat.le_of_not_lt h

theorem sha256Bytes_length (msg : List Nat) : (Sha256.sha256Bytes msg).length = 32 := by
  simp [Sha256.sha256Bytes, Sha256.be32]

theorem flatMap_byteHex_length (l : List Nat) :
    (l.flatMap Sha256.byteHex).length = 2 * l.length := by
  induction l with
  | nil => simp
  | cons b t ih => simp [Sha256.byteHex, ih]; ring

theorem mem_flatMap_byteHex (l : List Nat) (c : Char) (h : c ∈ l.flatMap Sha256.byteHex) :
    c ∈ "0123456789abcdef".data := by
  induction l with
  | nil => simp at h
  | cons b t ih =>
      rw [List.flatMap_cons, List.mem_append] at h
      rcases h with h | h
      · simp [Sha256.byteHex] at h
        rcases h with h | h
        · exact h ▸ hexDigitChar_mem _
        · exact h ▸ hexDigitChar_mem _
      · exact ih h

/-- C4: `ProofOfWorkBlock.computeHash` is the SHA-256 digest, in
lowercase hexadecimal, of the concatenation of the decimal rendering of
`index`, then `previousHash`, the decimal `timestamp`, `blockCreator`,
`ownerAddress`, the JSON serialization of `data`, and the decimal
`nonce`, in exactly that order; the digest has 64 characters, all drawn
from the lowercase hex alphabet. -/
theorem claimC4_theorem (f : PowFields) (nonce : Nat) :
    powHash f nonce =
      sha256Str (natDec f.index ++ f.previousHash ++ intDec f.timestamp ++ f.blockCreator ++
        f.ownerAddress ++ jsonStringify f.data ++ natDec nonce) ∧
    (powHash f nonce).length = 64 ∧
    ((powHash f nonce).data.all fun c => "0123456789abcdef".data.contains c) = true := by
  refine ⟨rfl, ?_, ?_⟩
  · show (String.mk _).length = 64
    show ((Sha256.sha256Bytes _).flatMap Sha256.byteHex).length = 64
    rw [flatMap_byteHex_length, sha256Bytes_length]
  · rw [List.all_eq_true]
    intro c hc
    have : c ∈ "0123456789abcdef".data :=
      mem_flatMap_byteHex _ c (by simpa [powHash, powComputeHash, sha256Str, Sha256.sha256Hex] using hc)
    simpa [List.contains] using this

/-! ## Claim C5: mineBlock -/

theorem stop_mono_le (stop : Nat → Bool) (mono : ∀ i, stop i = true → stop (i + 1) = true)
    {i j : Nat} (hij : i ≤ j) (hi : stop i = true) : stop j = true := by
  induction j, hij using Nat.le_induction with
  | base => exact hi
  | succ n _ ih => exact mono n ih

theorem mineLoop_spec (stop : Nat → Bool) (f : PowFields) (d : Nat) :
    ∀ fuel nonce step r n h e,
      mineLoop stop f d fuel nonce (powHash f nonce) step = some (r, n, h, e) →
      step ≤ e ∧ h = powHash f n ∧
      (r = true → stop e = false ∧ strTake h d = zeroString d) ∧
      (stop e = true → r = false) := by
  intro fuel
  induction fuel with
  | zero => intro nonce step r n h e hrun; simp [mineLoop] at hrun
  | succ fuel ih =>
      intro nonce step r n h e hrun
      simp only [mineLoop] at hrun
      by_cases h1 : stop step = true
      · rw [if_pos h1] at hrun
        simp only [Option.some.injEq, Prod.mk.injEq] at hrun
        obtain ⟨hr, hn, hh, he⟩ := hrun
        subst hr; subst hn; subst hh; subst he
        exact ⟨le_refl _, rfl, fun hc => by simp at hc, fun _ => rfl⟩
      · rw [if_neg h1] at hrun
        by_cases h2 : strTake (powHash f nonce) d = zeroString d
        · rw [if_pos h2] at hrun
          simp only [Option.some.injEq, Prod.mk.injEq] at hrun
          obtain ⟨hr, hn, hh, he⟩ := hrun
          subst hr; subst hn; subst hh; subst he
          exact ⟨le_refl _, rfl, fun _ => ⟨Bool.not_eq_true _ ▸ h1, h2⟩,
            fun hc => absurd hc h1⟩
        · rw [if_neg h2] at hrun
          obtain ⟨hle, hh, hsucc, hstop⟩ := ih (nonce + 1) (step + 1) r n h e hrun
          exact ⟨le_trans (Nat.le_succ step) hle, hh, hsucc, hstop⟩

/-- C5: (a) whenever `mineBlock` returns succeeded, the final hash is
`computeHash` of the final fields, its first `difficulty` characters are
all zeros, and (given that `stopMining` is one-way/monotone) the flag
was never set at any point of the run; (b) if the stop flag is set at
the loop's exit check, the result is cancelled; (c) with difficulty 0
the loop condition is immediately satisfied and mining succeeds without
incrementing the nonce. -/
theorem claimC5_theorem (stop : Nat → Bool) (f : PowFields)
    (mono : ∀ i, stop i = true → stop (i + 1) = true) :
    (∀ d fuel r n h e, mineBlock stop f d fuel = some (r, n, h, e) →
       ((r = true → h = powHash f n ∧ strTake h d = zeroString d ∧
           ∀ i, i ≤ e → stop i = false) ∧
        (stop e = true → r = false))) ∧
    (∀ fuel, stop 0 = false → mineBlock stop f 0 (fuel + 1) = some (true, 0, powHash f 0, 0)) := by
  constructor
  · intro d fuel r n h e hrun
    obtain ⟨-, hh, hsucc, hstop⟩ := mineLoop_spec stop f d fuel 0 0 r n h e hrun
    refine ⟨fun hr => ⟨hh, (hsucc hr).2, ?_⟩, hstop⟩
    intro i hie
    cases hi : stop i
    · rfl
    · exact absurd (stop_mono_le stop mono hie hi) (by simp [(hsucc hr).1])
  · intro fuel h0
    simp [mineBlock, mineLoop, h0, strTake, zeroString]

/-- C5 witness: with the stop flag never set and difficulty 0, mining
succeeds immediately at nonce 0. -/
theorem claimC5_witness :
    mineBlock (fun _ => false) powFieldsC 0 1 = some (true, 0, powHash powFieldsC 0, 0) :=
  (claimC5_theorem (fun _ => false) powFieldsC (fun _ h => h)).2 0 rfl

/-! ## Claim C6: replaceChain -/

/-- C6: with no peer-chain processing already in flight, `replaceChain`
rejects a chain that is not strictly longer or fails `validateChain`,
leaving the in-memory chain and the persisted storage unchanged and
emitting nothing; otherwise it installs the new chain, rewrites storage
in full, and emits `newPeerChainAccepted`. -/
theorem claimC6_theorem (st : BCState) (newChain : List Block)
    (hppc : st.processingPeerChain = false) :
    ((newChain.length ≤ st.chain.length ∨ (validateChain newChain).isValid = false) →
        replaceChain st newChain = (st, [])) ∧
    (st.chain.length < newChain.length → (validateChain newChain).isValid = true →
        replaceChain st newChain =
          ({ chain := newChain, processingPeerChain := false,
             storage := serializeChain newChain }, ["newPeerChainAccepted"])) := by
  constructor
  · intro hrej
    unfold replaceChain
    rw [if_neg (by simp [hppc])]
    rcases hrej with h | h
    · rw [if_pos h]
    · by_cases hlen : newChain.length ≤ st.chain.length
      · rw [if_pos hlen]
      · rw [if_neg hlen, if_pos (by simp [h])]
  · intro hlen hval
    unfold replaceChain
    rw [if_neg (by simp [hppc]), if_neg (Nat.not_le.mpr hlen), if_neg (by simp [hval])]

/-- C6 witness: a concrete strictly longer valid chain is installed and
storage is rewritten, with the acceptance event emitted. -/
theorem claimC6_witness :
    replaceChain bcStateC [genesisBlockC, blockOneC] =
      ({ chain := [genesisBlockC, blockOneC], processingPeerChain := false,
         storage := serializeChain [genesisBlockC, blockOneC] }, ["newPeerChainAccepted"]) :=
  (claimC6_theorem bcStateC [genesisBlockC, blockOneC] rfl).2 (by decide) (by decide)

/-! ## Claim C7: what addPendingEntry guarantees about accepted entries -/

theorem validatePendingEntry_props (verify : String → String → Option String → Bool)
    (now : Int) (e : Entry) (h : validatePendingEntry verify now e = true) :
    hashEntry e = e.hash ∧
    (e.from_ = "ICO" ∨ e.from_ = "INCENTIVE" ∨
      verify e.from_ (signedEntryString e) e.signature = true) ∧
    (now - e.initiationTimestamp).natAbs ≤ 60000 := by
  unfold validatePendingEntry at h
  split_ifs at h with h1 h2 h3
  try simp at h
  refine ⟨Classical.not_not.mp h1, ?_, Nat.le_of_not_lt h3⟩
  have hsig : verifySignatureE verify e = true := Classical.not_not.mp h2
  unfold verifySignatureE at hsig
  by_cases hico : e.from_ = "ICO"
  · exact Or.inl hico
  · by_cases hinc : e.from_ = "INCENTIVE"
    · exact Or.inr (Or.inl hinc)
    · rw [if_pos ⟨hico, hinc⟩] at hsig
      exact Or.inr (Or.inr hsig)

/-- C7: every pair in the pool returned by `addPendingEntry` was either
already pooled, or its entry satisfies, at acceptance time: the
recomputed SHA-256 hash over the six unsigned fields equals its `hash`;
its sender is a sentinel (`"ICO"`/`"INCENTIVE"`) or its signature
verifies against the public key `from` over the seven-field JSON
serialization; and its `initiationTimestamp` is within 60,000 ms of the
node clock. -/
theorem claimC7_theorem (verify : String → String → Option String → Bool) (now : Int)
    (freshId : String) (pool : EntryPool) (entry : Entry) (p : String × Entry)
    (hmem : p ∈ addPendingEntry verify now freshId pool entry) :
    p ∈ pool ∨
      (hashEntry p.2 = p.2.hash ∧
       (p.2.from_ = "ICO" ∨ p.2.from_ = "INCENTIVE" ∨
         verify p.2.from_ (signedEntryString p.2) p.2.signature = true) ∧
       (now - p.2.initiationTimestamp).natAbs ≤ 60000) := by
  have hcase : addPendingEntry verify now freshId pool entry = pool ∨
      ∃ e : Entry, validatePendingEntry verify now e = true ∧
        ∃ id, addPendingEntry verify now freshId pool entry = pool ++ [(id, e)] := by
    simp only [addPendingEntry]
    split_ifs with h1 h2
    · exact Or.inl rfl
    · exact Or.inr ⟨_, h2, _, rfl⟩
    · exact Or.inl rfl
  rcases hcase with hc | ⟨e, hval, id, hc⟩
  · rw [hc] at hmem
    exact Or.inl hmem
  · rw [hc] at hmem
    rcases List.mem_append.mp hmem with hp | hp
    · exact Or.inl hp
    · simp only [List.mem_singleton] at hp
      subst hp
      exact Or.inr (validatePendingEntry_props verify now _ hval)

/-- C7 witness: a concrete `INCENTIVE` entry accepted into the empty
pool satisfies the acceptance invariant. -/
theorem claimC7_witness :
    ("w1", rewardEntryIdC) ∈ ([] : EntryPool) ∨
      (hashEntry rewardEntryIdC = rewardEntryIdC.hash ∧
       (rewardEntryIdC.from_ = "ICO" ∨ rewardEntryIdC.from_ = "INCENTIVE" ∨
         verifyNoneC rewardEntryIdC.from_ (signedEntryString rewardEntryIdC)
           rewardEntryIdC.signature = true) ∧
       (0 - rewardEntryIdC.initiationTimestamp).natAbs ≤ 60000) :=
  claimC7_theorem verifyNoneC 0 "w1" [] rewardEntryC ("w1", rewardEntryIdC) (by decide)

/-! ## Claim C8: isValidTimestamp -/

/-- C8: `isValidTimestamp(next, previous)` holds exactly when
`next.timestamp > previous.timestamp - 60000`; a successor exactly
60,000 ms behind its predecessor is rejected while one 59,999 ms behind
is accepted. -/
theorem claimC8_theorem :
    (∀ nextBlock previousBlock : Block,
      isValidTimestamp nextBlock previousBlock = true ↔
        previousBlock.timestamp - 60000 < nextBlock.timestamp) ∧
    isValidTimestamp (tsBlock (1700000000000 - 60000)) (tsBlock 1700000000000) = false ∧
    isValidTimestamp (tsBlock (1700000000000 - 59999)) (tsBlock 1700000000000) = true := by
  refine ⟨?_, by decide, by decide⟩
  intro nextBlock previousBlock
  unfold isValidTimestamp
  constructor
  · intro h
    have := of_decide_eq_true h
    omega
  · intro h
    apply decide_eq_true
    omega

/-! ## Claim C9: storage round trip -/

theorem digitChar_mem (d : Nat) : digitChar d ∈ "0123456789".data := by
  by_cases h : d < 10
  · interval_cases d <;> decide
  · unfold digitChar
    rw [List.getD_eq_default]
    · decide
    · simpa using Nat.le_of_not_lt h

theorem natDecGo_mem (fuel : Nat) : ∀ (n : Nat) (acc : List Char) (c : Char),
    c ∈ natDecGo fuel n acc → c ∈ "0123456789".data ∨ c ∈ acc := by
  induction fuel with
  | zero => exact fun n acc c hc => Or.inr hc
  | succ fuel ih =>
      intro n acc c hc
      unfold natDecGo at hc
      split_ifs at hc
      · rcases List.mem_cons.mp hc with rfl | h
        · exact Or.inl (digitChar_mem n)
        · exact Or.inr h
      · rcases ih (n / 10) (digitChar (n % 10) :: acc) c hc with h | h
        · exact Or.inl h
        · rcases List.mem_cons.mp h with rfl | h2
          · exact Or.inl (digitChar_mem _)
          · exact Or.inr h2

theorem natDec_no_newline (n : Nat) : '\n' ∉ (natDec n).data := by
  intro h
  rcases natDecGo_mem (n + 1) n [] '\n' h with h2 | h2
  · exact absurd h2 (by decide)
  · simp at h2

theorem intDec_no_newline (i : Int) : '\n' ∉ (intDec i).data := by
  cases i with
  | ofNat n => exact natDec_no_newline n
  | negSucc n =>
      intro h
      rw [show intDec (Int.negSucc n) = "-" ++ natDec (n + 1) from rfl,
        String.data_append] at h
      rcases List.mem_append.mp h with h2 | h2
      · exact absurd h2 (by decide)
      · exact natDec_no_newline (n + 1) h2

theorem hexDigitChar_ne_newline (d : Nat) : Sha256.hexDigitChar d ≠ '\n' := by
  intro h
  have hm := hexDigitChar_mem d
  rw [h] at hm
  exact absurd hm (by decide)

theorem escChar_no_newline (c x : Char) (hx : x ∈ escChar c) : x ≠ '\n' := by
  unfold escChar at hx
  split_ifs at hx with h1 h2 h3 h4 h5 h6 h7 h8
  · simp [esc2] at hx; rcases hx with rfl | rfl <;> decide
  · simp [esc2] at hx; rcases hx with rfl | rfl <;> decide
  · simp [esc2] at hx; rcases hx with rfl | rfl <;> decide
  · simp [esc2] at hx; rcases hx with rfl | rfl <;> decide
  · simp [esc2] at hx; rcases hx with rfl | rfl <;> decide
  · simp [esc2] at hx; rcases hx with rfl | rfl <;> decide
  · simp [esc2] at hx; rcases hx with rfl | rfl <;> decide
  · simp [Sha256.byteHex] at hx
    rcases hx with rfl | rfl | rfl | rfl | rfl | rfl <;>
      first
      | decide
      | exact hexDigitChar_ne_newline _
  · simp at hx
    subst hx
    exact h5

theorem jsonStrChars_no_newline (s : String) (x : Char) (hx : x ∈ jsonStrChars s) :
    x ≠ '\n' := by
  unfold jsonStrChars at hx
  rcases List.mem_cons.mp hx with rfl | hx2
  · decide
  · rcases List.mem_append.mp hx2 with h | h
    · obtain ⟨c, -, hc⟩ := List.mem_flatMap.mp h
      exact escChar_no_newline c x hc
    · simp at h; subst h; decide

mutual

theorem jsonChars_no_newline : ∀ (j : Json) (x : Char), x ∈ jsonChars j → x ≠ '\n'
  | .null, x, hx => by
      simp [jsonChars] at hx
      rcases hx with rfl | rfl | rfl | rfl <;> decide
  | .bool true, x, hx => by
      simp [jsonChars] at hx
      rcases hx with rfl | rfl | rfl | rfl <;> decide
  | .bool false, x, hx => by
      simp [jsonChars] at hx
      rcases hx with rfl | rfl | rfl | rfl | rfl <;> decide
  | .num n, x, hx => fun heq => intDec_no_newline n (heq ▸ hx)
  | .str s, x, hx => jsonStrChars_no_newline s x hx
  | .arr xs, x, hx => by
      rw [show jsonChars (.arr xs) = '[' :: (jsonArrChars xs ++ [']']) from rfl] at hx
      rcases List.mem_cons.mp hx with rfl | hx2
      · decide
      · rcases List.mem_append.mp hx2 with h | h
        · exact jsonArrChars_no_newline xs x h
        · simp at h; subst h; decide
  | .obj kvs, x, hx => by
      rw [show jsonChars (.obj kvs) = '{' :: (jsonObjChars kvs ++ ['}']) from rfl] at hx
      rcases List.mem_cons.mp hx with rfl | hx2
      · decide
      · rcases List.mem_append.mp hx2 with h | h
        · exact jsonObjChars_no_newline kvs x h
        · simp at h; subst h; decide

theorem jsonArrChars_no_newline : ∀ (xs : List Json) (x : Char), x ∈ jsonArrChars xs → x ≠ '\n'
  | [], x, hx => by simp [jsonArrChars] at hx
  | [j], x, hx => jsonChars_no_newline j x (by simpa [jsonArrChars] using hx)
  | j :: j2 :: xs, x, hx => by
      rw [show jsonArrChars (j :: j2 :: xs) = jsonChars j ++ ',' :: jsonArrChars (j2 :: xs)
        from rfl] at hx
      rcases List.mem_append.mp hx with h | h
      · exact jsonChars_no_newline j x h
      · rcases List.mem_cons.mp h with rfl | h2
        · decide
        · exact jsonArrChars_no_newline (j2 :: xs) x h2

theorem jsonObjChars_no_newline :
    ∀ (kvs : List (String × Json)) (x : Char), x ∈ jsonObjChars kvs → x ≠ '\n'
  | [], x, hx => by simp [jsonObjChars] at hx
  | [(k, v)], x, hx => by
      rw [show jsonObjChars [(k, v)] = jsonStrChars k ++ ':' :: jsonChars v from rfl] at hx
      rcases List.mem_append.mp hx with h | h
      · exact jsonStrChars_no_newline k x h
      · rcases List.mem_cons.mp h with rfl | h2
        · decide
        · exact jsonChars_no_newline v x h2
  | (k, v) :: kv :: kvs, x, hx => by
      simp only [jsonObjChars, List.mem_append, List.mem_cons] at hx
      rcases hx with (h | rfl | h) | rfl | h
      · exact jsonStrChars_no_newline k x h
      · decide
      · exact jsonChars_no_newline v x h
      · decide
      · exact jsonObjChars_no_newline (kv :: kvs) x h

end

theorem blockJson_no_newline (b : Block) : '\n' ∉ (blockJson b).data :=
  fun h => jsonChars_no_newline _ '\n' h rfl

theorem blockJson_ne_nil (b : Block) : (blockJson b).data ≠ [] := by
  rw [show (blockJson b).data = jsonChars (.obj _) from rfl]
  simp [jsonChars]

theorem splitSep_block (seg rest : List Char) (hnl : '\n' ∉ seg) :
    splitSep (seg ++ ',' :: '\n' :: rest) = seg :: splitSep rest := by
  induction seg with
  | nil => rfl
  | cons c seg ih =>
      have h2 : '\n' ∉ seg := fun hm => hnl (List.mem_cons_of_mem c hm)
      have key : ∀ (r1 : List Char), c = ',' →
          seg ++ ',' :: '\n' :: rest = '\n' :: r1 → False := by
        intro r1 _ habs
        cases seg with
        | nil => simp at habs
        | cons d seg2 =>
            rw [List.cons_append] at habs
            have hd : d = '\n' := (List.cons.injEq _ _ _ _ ▸ habs).1
            exact hnl (List.mem_cons_of_mem c (hd ▸ List.mem_cons_self d seg2))
      rw [List.cons_append, splitSep.eq_3 c _ key, ih h2]

theorem saveBlocks_flatten : ∀ (bs : List Block) (acc : List Char),
    bs.foldl saveBlockChars acc =
      acc ++ (bs.map (fun b => (blockJson b).data ++ sepChars)).flatten := by
  intro bs
  induction bs with
  | nil => intro acc; simp
  | cons b bs ih =>
      intro acc
      rw [List.foldl_cons, ih, List.map_cons, List.flatten_cons]
      simp [saveBlockChars]

theorem splitSep_chain : ∀ (bs : List Block),
    splitSep ((bs.map (fun b => (blockJson b).data ++ sepChars)).flatten) =
      (bs.map (fun b => (blockJson b).data)) ++ [[]] := by
  intro bs
  induction bs with
  | nil => rfl
  | cons b bs ih =>
      rw [List.map_cons, List.flatten_cons]
      have : (blockJson b).data ++ sepChars ++
          (bs.map (fun b => (blockJson b).data ++ sepChars)).flatten =
          (blockJson b).data ++ ',' :: '\n' ::
            (bs.map (fun b => (blockJson b).data ++ sepChars)).flatten := by
        simp [sepChars]
      rw [this, splitSep_block _ _ (blockJson_no_newline b), ih]
      simp

/-- C9: persisting any sequence of blocks through successive `saveBlock`
appends and reloading through `loadBlockchain`'s split recovers exactly
the original sequence of serialized blocks, in order — the separator
`",\n"` never occurs inside a serialized block (JSON escapes the newline
character), so splitting loses no block and splits no block. -/
theorem claimC9_theorem (bs : List Block) :
    loadSegments (bs.foldl saveBlockChars []) =
      bs.map (fun b => (blockJson b).data) := by
  unfold loadSegments
  rw [saveBlocks_flatten bs [], List.nil_append, splitSep_chain bs]
  rw [List.filter_append]
  have h1 : (bs.map (fun b => (blockJson b).data)).filter (· ≠ []) =
      bs.map (fun b => (blockJson b).data) := by
    apply List.filter_eq_self.mpr
    intro l hl
    obtain ⟨b, -, rfl⟩ := List.mem_map.mp hl
    simpa using blockJson_ne_nil b
  rw [h1]
  simp

/-! ## Claim C10: validateChain never inspects the block at index 0 -/

/-- C10: `validateChain` starts its loop at index 1, so for every chain
of length 0 or 1 — whatever the genesis block's content, hash, index or
timestamp — the report is fully valid: `isValid`, the four per-category
booleans, `blockCount` equal to the length, and no errors. -/
theorem claimC10_theorem (chain : List Block) (hlen : chain.length ≤ 1) :
    validateChain chain = ⟨true, chain.length, true, true, true, true, []⟩ := by
  match chain with
  | [] => rfl
  | [b] => rfl
  | a :: b :: rest => simp at hlen

/-- C10 witness: a single-block chain whose only block is garbage still
validates with a fully clean report. -/
theorem claimC10_witness :
    validateChain [garbageGenesis] = ⟨true, 1, true, true, true, true, []⟩ :=
  claimC10_theorem [garbageGenesis] (by decide)
